import Mathlib

/-!
Shallow embedding of the `VoxelRaycaster` class of `src/voxel-traverse.py`.

Python floats are modelled as exact rationals; the `math.inf` sentinel used
for `tMax`/`tDelta` on a zero-direction axis is modelled by the extra
constructor `ExtQ.inf`.  The generator `cast` is modelled by an explicit
state record `CastState`, a one-iteration transition `step` (one pass of the
`while True` loop: it either returns, ending the sequence, or yields exactly
one cell), and a fuel-indexed iterate `run`.  `run fuel s` returns the list
of cells yielded by the first `fuel` loop iterations together with a flag
that is `true` iff the generator returned (raised `StopIteration`) within
that budget; the flag being `true` means the list is the complete remainder
of the sequence.
-/

attribute [local semireducible] Rat.add Rat.mul Rat.inv Rat.sub Rat.ofScientific

namespace VoxelTraverse

/-- A Python float value as it occurs in `cast`: either a finite value
(modelled exactly as a rational) or `math.inf`.  `-inf` and `NaN` never
occur in the program. -/
inductive ExtQ where
  | fin : ℚ → ExtQ
  | inf : ExtQ
deriving DecidableEq

/-- Python `<` on these values: `inf < inf` is `False`, any finite value is
less than `inf`, and `inf` is less than nothing. -/
def ExtQ.lt : ExtQ → ExtQ → Bool
  | ExtQ.fin a, ExtQ.fin b => decide (a < b)
  | ExtQ.fin _, ExtQ.inf => true
  | ExtQ.inf, _ => false

/-- Python `+` on these values (`inf + x = x + inf = inf`). -/
def ExtQ.add : ExtQ → ExtQ → ExtQ
  | ExtQ.fin a, ExtQ.fin b => ExtQ.fin (a + b)
  | _, _ => ExtQ.inf

/-- The attributes `self._width`, `self._height` of a `VoxelRaycaster`. -/
structure VoxelRaycaster where
  width : ℤ
  height : ℤ
deriving DecidableEq

/-- `VoxelRaycaster.__init__`: stores both dimensions unchanged; the body
performs no validation of any kind. -/
def VoxelRaycaster.make (width height : ℤ) : VoxelRaycaster :=
  { width := width, height := height }

/-- `VoxelRaycaster.set_dim`: overwrites both dimensions unchanged; again no
validation is performed. -/
def VoxelRaycaster.set_dim (_r : VoxelRaycaster) (width height : ℤ) : VoxelRaycaster :=
  { width := width, height := height }

/-- `int(copysign(1, d))` for an exact rational `d`.  Rationals have no
`-0.0`, so a zero component gets step `+1`, matching `copysign(1, 0.0) = 1.0`. -/
def stepOf (d : ℚ) : ℤ :=
  if d < 0 then -1 else 1

/-- `justOut = positiveStep * dim + step` from lines 45-46 of the source
(`positiveStep` is the Python bool `step > 0`, multiplied as `1`/`0`). -/
def justOut (dim step : ℤ) : ℤ :=
  (if 0 < step then dim else 0) + step

/-- `tMaxX = (positiveStepX - (origin[0] - x)) / dir_x` when `dir_x != 0`,
else `math.inf` (lines 49-54 of the source; `x = floor(origin[0])`). -/
def tMaxInit (orig d : ℚ) : ExtQ :=
  if d = 0 then ExtQ.inf
  else ExtQ.fin (((if 0 < stepOf d then (1 : ℚ) else 0) - (orig - (Rat.floor orig : ℚ))) / d)

/-- `tDeltaX = stepX / dir_x` when `dir_x != 0`, else `math.inf`. -/
def tDeltaInit (d : ℚ) : ExtQ :=
  if d = 0 then ExtQ.inf else ExtQ.fin ((stepOf d : ℚ) / d)

/-- Division that reports, instead of executing, a division by zero. -/
def checkedDiv (a b : ℚ) : Option ℚ :=
  if b = 0 then none else some (a / b)

/-- The per-axis `tMax`/`tDelta` initialisation exactly as `cast` performs
it, but with each division routed through `checkedDiv`: the result is `none`
iff a raw division by zero would be executed. -/
def axisInitChecked (orig d : ℚ) : Option (ExtQ × ExtQ) :=
  if d = 0 then some (ExtQ.inf, ExtQ.inf)
  else
    match checkedDiv ((if 0 < stepOf d then (1 : ℚ) else 0) - (orig - (Rat.floor orig : ℚ))) d,
        checkedDiv ((stepOf d : ℤ) : ℚ) d with
    | some m, some t => some (ExtQ.fin m, ExtQ.fin t)
    | _, _ => none

/-- The local variables of one invocation of `cast` as they stand at the
top of the `while True` loop. -/
structure CastState where
  x : ℤ
  y : ℤ
  stepX : ℤ
  stepY : ℤ
  justOutX : ℤ
  justOutY : ℤ
  tMaxX : ExtQ
  tMaxY : ExtQ
  tDeltaX : ExtQ
  tDeltaY : ExtQ
deriving DecidableEq

/-- One iteration of the `while True` loop (lines 63-75): compare
`tMaxX < tMaxY`, advance the chosen axis, return (`none`) if the new
coordinate equals that axis's `justOut` sentinel, otherwise accumulate
`tDelta` into `tMax` and yield the new cell. -/
def step (s : CastState) : Option (CastState × (ℤ × ℤ)) :=
  if ExtQ.lt s.tMaxX s.tMaxY = true then
    if s.x + s.stepX = s.justOutX then none
    else some ({ s with x := s.x + s.stepX, tMaxX := ExtQ.add s.tMaxX s.tDeltaX },
      (s.x + s.stepX, s.y))
  else
    if s.y + s.stepY = s.justOutY then none
    else some ({ s with y := s.y + s.stepY, tMaxY := ExtQ.add s.tMaxY s.tDeltaY },
      (s.x, s.y + s.stepY))

/-- Iterate `step` for at most `fuel` loop iterations, collecting the yielded
cells; the flag is `true` iff the generator returned within the budget. -/
def run : ℕ → CastState → List (ℤ × ℤ) × Bool
  | 0, _ => ([], false)
  | n + 1, s =>
    match step s with
    | none => ([], true)
    | some (s', c) =>
      let r := run n s'
      (c :: r.1, r.2)

/-- The state of the loop variables after lines 36-61 of `cast` have run. -/
def initState (w h : ℤ) (ox oy dx dy : ℚ) : CastState :=
  { x := Rat.floor ox
    y := Rat.floor oy
    stepX := stepOf dx
    stepY := stepOf dy
    justOutX := justOut w (stepOf dx)
    justOutY := justOut h (stepOf dy)
    tMaxX := tMaxInit ox dx
    tMaxY := tMaxInit oy dy
    tDeltaX := tDeltaInit dx
    tDeltaY := tDeltaInit dy }

/-- The cells yielded by `cast((ox, oy), (dx, dy))` on a `w × h` grid when
the consumer draws at most `1 + fuel` cells: the floored origin cell is
yielded unconditionally first (line 38), then the loop runs. -/
def castCells (w h : ℤ) (ox oy dx dy : ℚ) (fuel : ℕ) : List (ℤ × ℤ) :=
  (Rat.floor ox, Rat.floor oy) :: (run fuel (initState w h ox oy dx dy)).1

/-- `true` iff the generator returned (the sequence is exhausted) within
`fuel` loop iterations. -/
def castTerm (w h : ℤ) (ox oy dx dy : ℚ) (fuel : ℕ) : Bool :=
  (run fuel (initState w h ox oy dx dy)).2

/-- The method `VoxelRaycaster.cast` as an effect on the object: it reads
`self.width` and `self.height` and assigns only local variables, so its
effect on `self` is the identity; the returned pair is (yielded cells,
object after the call). -/
def VoxelRaycaster.cast (r : VoxelRaycaster) (ox oy dx dy : ℚ) (fuel : ℕ) :
    List (ℤ × ℤ) × VoxelRaycaster :=
  (castCells r.width r.height ox oy dx dy fuel, r)

/-- Membership of a cell in the grid area `[0, w) × [0, h)`. -/
def inGrid (w h : ℤ) (c : ℤ × ℤ) : Prop :=
  0 ≤ c.1 ∧ c.1 < w ∧ 0 ≤ c.2 ∧ c.2 < h

instance (w h : ℤ) (c : ℤ × ℤ) : Decidable (inGrid w h c) := by
  unfold inGrid; infer_instance

/-- The column of cells `(x, y+1), (x, y+2), ..., (x, y+n)`. -/
def vertList (x : ℤ) : ℤ → ℕ → List (ℤ × ℤ)
  | _, 0 => []
  | y, n + 1 => (x, y + 1) :: vertList x (y + 1) n

/-- Outcome of the construction described by the spec. -/
inductive ConstructResult where
  | ok : VoxelRaycaster → ConstructResult
  | invalidDimension : ConstructResult
deriving DecidableEq

/-- Modelled from the spec: the spec's §7 demands that constructing with a
non-positive width or height "fails with an InvalidDimension kind" at
construction time; no such check exists anywhere in the source, whose
`__init__` is total. -/
def specConstruct (w h : ℤ) : ConstructResult :=
  if w ≤ 0 ∨ h ≤ 0 then ConstructResult.invalidDimension
  else ConstructResult.ok (VoxelRaycaster.make w h)

/-- Number of loop iterations left on one axis before its coordinate `x`,
stepping by `step` (always `1` or `-1` in reachable states), reaches the
sentinel `j`. -/
def axisMeas (j x step : ℤ) : ℕ :=
  if step = 1 then (j - x).toNat else (x - j).toNat

/-- Termination measure of a loop state: every loop iteration moves exactly
one axis one cell towards its sentinel. -/
def meas (s : CastState) : ℕ :=
  axisMeas s.justOutX s.x s.stepX + axisMeas s.justOutY s.y s.stepY

/-- Loop invariant for a cast started at a cell of `[0, w] × [0, h]`: the
steps are `±1`, the sentinels are the ones `cast` computes from those steps
(`w + 1` or `-1`, resp. `h + 1` or `-1`), and the current cell stays in
`[0, w] × [0, h]`. -/
def Inv (w h : ℤ) (s : CastState) : Prop :=
  (s.stepX = 1 ∨ s.stepX = -1) ∧ (s.stepY = 1 ∨ s.stepY = -1) ∧
  s.justOutX = (if s.stepX = 1 then w + 1 else -1) ∧
  s.justOutY = (if s.stepY = 1 then h + 1 else -1) ∧
  0 ≤ s.x ∧ s.x ≤ w ∧ 0 ≤ s.y ∧ s.y ≤ h

theorem meas_ge_two {w h : ℤ} {s : CastState} (hinv : Inv w h s) : 2 ≤ meas s := by
  obtain ⟨hsx, hsy, hjx, hjy, hx0, hxw, hy0, hyh⟩ := hinv
  unfold meas axisMeas
  rcases hsx with h1 | h1 <;> rcases hsy with h2 | h2 <;>
    simp only [h1, h2] at hjx hjy ⊢ <;> simp at hjx hjy ⊢ <;> omega

theorem step_inv {w h : ℤ} {s s' : CastState} {c : ℤ × ℤ}
    (hinv : Inv w h s) (hstep : step s = some (s', c)) :
    Inv w h s' ∧ meas s = meas s' + 1 ∧ c = (s'.x, s'.y) := by
  obtain ⟨hsx, hsy, hjx, hjy, hx0, hxw, hy0, hyh⟩ := hinv
  unfold step at hstep
  by_cases hlt : ExtQ.lt s.tMaxX s.tMaxY = true
  · rw [if_pos hlt] at hstep
    by_cases hout : s.x + s.stepX = s.justOutX
    · rw [if_pos hout] at hstep; exact Option.noConfusion hstep
    · rw [if_neg hout] at hstep
      cases hstep
      have hb : 0 ≤ s.x + s.stepX ∧ s.x + s.stepX ≤ w := by
        rcases hsx with h1 | h1 <;> rw [h1] at hout ⊢ <;>
          simp only [h1] at hjx <;> simp at hjx <;> omega
      refine ⟨⟨hsx, hsy, hjx, hjy, hb.1, hb.2, hy0, hyh⟩, ?_, rfl⟩
      unfold meas axisMeas
      dsimp only
      rcases hsx with h1 | h1 <;> rcases hsy with h2 | h2 <;>
        simp only [h1, h2] at hjx hjy hout ⊢ <;> simp at hjx hjy ⊢ <;> omega
  · rw [if_neg hlt] at hstep
    by_cases hout : s.y + s.stepY = s.justOutY
    · rw [if_pos hout] at hstep; exact Option.noConfusion hstep
    · rw [if_neg hout] at hstep
      cases hstep
      have hb : 0 ≤ s.y + s.stepY ∧ s.y + s.stepY ≤ h := by
        rcases hsy with h2 | h2 <;> rw [h2] at hout ⊢ <;>
          simp only [h2] at hjy <;> simp at hjy <;> omega
      refine ⟨⟨hsx, hsy, hjx, hjy, hx0, hxw, hb.1, hb.2⟩, ?_, rfl⟩
      unfold meas axisMeas
      dsimp only
      rcases hsx with h1 | h1 <;> rcases hsy with h2 | h2 <;>
        simp only [h1, h2] at hjx hjy hout ⊢ <;> simp at hjx hjy ⊢ <;> omega

theorem run_inv (w h : ℤ) : ∀ (n : ℕ) (s : CastState), Inv w h s →
    (run n s).1.length + 2 ≤ meas s ∧
    (∀ c ∈ (run n s).1, 0 ≤ c.1 ∧ c.1 ≤ w ∧ 0 ≤ c.2 ∧ c.2 ≤ h) ∧
    (meas s ≤ n + 1 → (run n s).2 = true) := by
  intro n
  induction n with
  | zero =>
    intro s hinv
    have h2 := meas_ge_two hinv
    refine ⟨by simpa [run] using h2, by simp [run], fun hle => absurd hle (by omega)⟩
  | succ n ih =>
    intro s hinv
    have h2 := meas_ge_two hinv
    cases hst : step s with
    | none =>
      refine ⟨?_, ?_, fun _ => ?_⟩ <;> simp [run, hst]
      omega
    | some p =>
      obtain ⟨s', c⟩ := p
      obtain ⟨hinv', hm, hc⟩ := step_inv hinv hst
      obtain ⟨ih1, ih2, ih3⟩ := ih s' hinv'
      refine ⟨?_, ?_, ?_⟩
      · simp only [run, hst]
        simp only [List.length_cons]
        omega
      · intro c' hc'
        simp only [run, hst, List.mem_cons] at hc'
        rcases hc' with rfl | hc'
        · rw [hc]
          obtain ⟨_, _, _, _, b1, b2, b3, b4⟩ := hinv'
          exact ⟨b1, b2, b3, b4⟩
        · exact ih2 c' hc'
      · intro hle
        simp only [run, hst]
        exact ih3 (by omega)

theorem initState_inv (w h : ℤ) (ox oy dx dy : ℚ)
    (hx0 : 0 ≤ Rat.floor ox) (hxw : Rat.floor ox ≤ w)
    (hy0 : 0 ≤ Rat.floor oy) (hyh : Rat.floor oy ≤ h) :
    Inv w h (initState w h ox oy dx dy) ∧
    meas (initState w h ox oy dx dy) ≤ (w + h + 2).toNat := by
  constructor
  · unfold Inv initState stepOf justOut
    dsimp only
    by_cases hdx : dx < 0 <;> by_cases hdy : dy < 0 <;> simp [hdx, hdy] <;> omega
  · unfold meas axisMeas initState stepOf justOut
    dsimp only
    by_cases hdx : dx < 0 <;> by_cases hdy : dy < 0 <;> simp [hdx, hdy] <;> omega

theorem run_no_exit : ∀ (n : ℕ) (s : CastState),
    (∃ q, s.tMaxX = ExtQ.fin q) → (∃ p, s.tDeltaX = ExtQ.fin p) →
    s.tMaxY = ExtQ.inf → s.stepX = 1 → s.justOutX ≤ s.x →
    (run n s).2 = false := by
  intro n
  induction n with
  | zero => intro s _ _ _ _ _; rfl
  | succ n ih =>
    intro s hq0 hp0 hinf hsx hle
    obtain ⟨q, hq⟩ := hq0
    obtain ⟨p, hp⟩ := hp0
    have hlt : ExtQ.lt s.tMaxX s.tMaxY = true := by rw [hq, hinf]; rfl
    have hne : ¬ (s.x + s.stepX = s.justOutX) := by rw [hsx]; omega
    have hst : step s = some
        ({ s with x := s.x + s.stepX, tMaxX := ExtQ.add s.tMaxX s.tDeltaX },
          (s.x + s.stepX, s.y)) := by
      unfold step; rw [if_pos hlt, if_neg hne]
    have h1 : ExtQ.add s.tMaxX s.tDeltaX = ExtQ.fin (q + p) := by
      rw [hq, hp]; rfl
    have h2 : s.justOutX ≤ s.x + s.stepX := by rw [hsx]; omega
    simp only [run, hst]
    exact ih _ ⟨q + p, h1⟩ ⟨p, hp⟩ hinf hsx h2

theorem run_zero_dir (n : ℕ) : ∀ (m : ℕ) (s : CastState),
    s.tMaxX = ExtQ.inf → s.tMaxY = ExtQ.inf → s.tDeltaY = ExtQ.inf →
    s.stepY = 1 → s.justOutY = s.y + (n : ℤ) + 1 → n + 1 ≤ m →
    run m s = (vertList s.x s.y n, true) := by
  induction n with
  | zero =>
    intro m s hmx hmy hdy hs hj hm
    obtain ⟨m, rfl⟩ : ∃ k, m = k + 1 := ⟨m - 1, by omega⟩
    have hlt : ¬ (ExtQ.lt s.tMaxX s.tMaxY = true) := by rw [hmx, hmy]; simp [ExtQ.lt]
    have hout : s.y + s.stepY = s.justOutY := by rw [hs, hj]; push_cast; ring
    have hst : step s = none := by unfold step; rw [if_neg hlt, if_pos hout]
    simp [run, hst, vertList]
  | succ n ih =>
    intro m s hmx hmy hdy hs hj hm
    obtain ⟨m, rfl⟩ : ∃ k, m = k + 1 := ⟨m - 1, by omega⟩
    have hlt : ¬ (ExtQ.lt s.tMaxX s.tMaxY = true) := by rw [hmx, hmy]; simp [ExtQ.lt]
    have hout : ¬ (s.y + s.stepY = s.justOutY) := by rw [hs, hj]; push_cast; omega
    have hst : step s = some
        ({ s with y := s.y + s.stepY, tMaxY := ExtQ.add s.tMaxY s.tDeltaY },
          (s.x, s.y + s.stepY)) := by
      unfold step; rw [if_neg hlt, if_neg hout]
    have IH := ih m { s with y := s.y + s.stepY, tMaxY := ExtQ.add s.tMaxY s.tDeltaY }
      hmx (by show ExtQ.add s.tMaxY s.tDeltaY = ExtQ.inf; rw [hmy, hdy]; rfl) hdy hs
      (by show s.justOutY = (s.y + s.stepY) + (n : ℤ) + 1; rw [hs, hj]; push_cast; ring)
      (by omega)
    simp only [run, hst]
    rw [IH]
    rw [hs]
    simp [vertList]

theorem axisInitChecked_eq (orig d : ℚ) :
    axisInitChecked orig d = some (tMaxInit orig d, tDeltaInit d) := by
  unfold axisInitChecked checkedDiv tMaxInit tDeltaInit
  by_cases hd : d = 0 <;> simp [hd]

theorem tMaxInit_zero (orig : ℚ) : tMaxInit orig 0 = ExtQ.inf := by
  unfold tMaxInit; rw [if_pos rfl]

theorem tDeltaInit_zero : tDeltaInit 0 = ExtQ.inf := by
  unfold tDeltaInit; rw [if_pos rfl]

/-- C5 (confirmed): for every grid and every origin, direction and consumer
budget, the first cell yielded by `cast` is `(floor ox, floor oy)`, produced
unconditionally before any bounds or direction check (it is the `yield` on
line 38, ahead of all other computation), even when that cell lies outside
the grid. -/
theorem cast_head_floor_origin (w h : ℤ) (ox oy dx dy : ℚ) (fuel : ℕ) :
    (castCells w h ox oy dx dy fuel).head? = some (Rat.floor ox, Rat.floor oy) := rfl

/-- C1 counterexample: with a `1 × 1` grid, origin `(5/2, 1/2)` and direction
`(1, 0)`, the floored origin cell `x = 2` already sits at the sentinel
`justOutX = width + 1 = 2`, so `x` is incremented past the sentinel and the
generator never returns: no amount of fuel exhausts the sequence, refuting
"the sequence is finite for every origin and direction". -/
theorem cast_cex_nonterminating :
    ¬ ∃ n : ℕ, castTerm 1 1 (5/2) (1/2) 1 0 n = true := by
  rintro ⟨n, hn⟩
  have h0 : (run n (initState 1 1 (5/2) (1/2) 1 0)).2 = false :=
    run_no_exit n (initState 1 1 (5/2) (1/2) 1 0)
      ⟨1/2, by decide⟩ ⟨1, by decide⟩ (by decide) (by decide) (by decide)
  unfold castTerm at hn
  rw [h0] at hn
  exact Bool.noConfusion hn

/-- C1 (amended): for every grid with `width, height ≥ 1` and every
direction, if the floored origin cell lies inside `[0, width) × [0, height)`
then the sequence produced by `cast` is finite: the generator returns within
`width + height + 1` loop iterations. -/
theorem cast_terminates_of_inGrid (w h : ℤ) (ox oy dx dy : ℚ)
    (hw : 1 ≤ w) (hh : 1 ≤ h)
    (hx0 : 0 ≤ Rat.floor ox) (hxw : Rat.floor ox < w)
    (hy0 : 0 ≤ Rat.floor oy) (hyh : Rat.floor oy < h) :
    castTerm w h ox oy dx dy (w + h + 1).toNat = true := by
  obtain ⟨hinv, hm⟩ := initState_inv w h ox oy dx dy hx0 (le_of_lt hxw) hy0 (le_of_lt hyh)
  have hr := (run_inv w h (w + h + 1).toNat (initState w h ox oy dx dy) hinv).2.2
  unfold castTerm
  exact hr (by omega)

theorem cast_terminates_of_inGrid_witness :
    castTerm 5 5 (5/2) (5/2) 1 1 ((5 : ℤ) + 5 + 1).toNat = true :=
  cast_terminates_of_inGrid 5 5 (5/2) (5/2) 1 1 (by decide) (by decide) (by decide)
    (by decide) (by decide) (by decide)

/-- C2 counterexample: on a `5 × 5` grid with origin `(5/2, 5/2)` and the
fully zero direction, `cast` yields four cells, not one: both `tMax` values
are `inf`, Python's `inf < inf` is `False`, so the `else` branch advances
`y` by `stepY = +1` every iteration until `y` hits `justOutY = height + 1`,
yielding `(2,2),(2,3),(2,4),(2,5)`. -/
theorem cast_cex_zero_dir :
    castTerm 5 5 (5/2) (5/2) 0 0 12 = true ∧
    castCells 5 5 (5/2) (5/2) 0 0 12 = [(2, 2), (2, 3), (2, 4), (2, 5)] ∧
    castCells 5 5 (5/2) (5/2) 0 0 12 ≠ [(2, 2)] := by decide

/-- C2 (amended): with direction `(0, 0)` both `tMax` values are the `inf`
sentinel, the comparison `tMaxX < tMaxY` is false, and the Y branch advances
with `stepY = +1` on every iteration: `cast` yields the floored origin cell
followed by the whole column `(x0, y0+1), ..., (x0, height)`, terminating
when `y` reaches `justOutY = height + 1`; it yields exactly one cell only
when `floor oy = height`. -/
theorem cast_zero_dir (w h : ℤ) (ox oy : ℚ) (hw : 1 ≤ w) (hh : 1 ≤ h)
    (hy : Rat.floor oy ≤ h) :
    castCells w h ox oy 0 0 ((h - Rat.floor oy).toNat + 1) =
      (Rat.floor ox, Rat.floor oy) ::
        vertList (Rat.floor ox) (Rat.floor oy) (h - Rat.floor oy).toNat ∧
    castTerm w h ox oy 0 0 ((h - Rat.floor oy).toNat + 1) = true := by
  have e1 : (initState w h ox oy 0 0).tMaxX = ExtQ.inf := tMaxInit_zero ox
  have e2 : (initState w h ox oy 0 0).tMaxY = ExtQ.inf := tMaxInit_zero oy
  have e3 : (initState w h ox oy 0 0).tDeltaY = ExtQ.inf := tDeltaInit_zero
  have e4 : (initState w h ox oy 0 0).stepY = 1 := by
    show stepOf 0 = 1
    unfold stepOf
    rw [if_neg (lt_irrefl (0 : ℚ))]
  have e5 : (initState w h ox oy 0 0).justOutY =
      (initState w h ox oy 0 0).y + ((h - Rat.floor oy).toNat : ℤ) + 1 := by
    show justOut h (stepOf 0) = Rat.floor oy + ((h - Rat.floor oy).toNat : ℤ) + 1
    unfold justOut stepOf
    rw [if_neg (lt_irrefl (0 : ℚ))]
    norm_num
    omega
  have hz := run_zero_dir (h - Rat.floor oy).toNat ((h - Rat.floor oy).toNat + 1)
      (initState w h ox oy 0 0) e1 e2 e3 e4 e5 (le_refl _)
  constructor
  · unfold castCells
    rw [hz]
    rfl
  · unfold castTerm
    rw [hz]

theorem cast_zero_dir_witness :
    castCells 3 3 (1/2) (1/2) 0 0 (((3 : ℤ) - Rat.floor (1/2)).toNat + 1) =
      (Rat.floor (1/2 : ℚ), Rat.floor (1/2 : ℚ)) ::
        vertList (Rat.floor (1/2 : ℚ)) (Rat.floor (1/2 : ℚ))
          ((3 : ℤ) - Rat.floor (1/2)).toNat ∧
    castTerm 3 3 (1/2) (1/2) 0 0 (((3 : ℤ) - Rat.floor (1/2)).toNat + 1) = true :=
  cast_zero_dir 3 3 (1/2) (1/2) (by decide) (by decide) (by decide)

/-- C3 counterexample: on a `1 × 1` grid with origin `(1/2, 1/2)` and
direction `(1, 0)` the traversal yields `(1, 0)` after the first cell —
a cell outside `[0, 1) × [0, 1)` — because the positive-direction sentinel
is `justOutX = width + 1`, not `width`. -/
theorem cast_cex_out_of_grid_yield :
    castTerm 1 1 (1/2) (1/2) 1 0 5 = true ∧
    ∃ c ∈ (castCells 1 1 (1/2) (1/2) 1 0 5).tail, ¬ inGrid 1 1 c := by decide

/-- C3 (amended): for a floored origin inside the grid, every cell yielded
after the first lies in the closed range `[0, width] × [0, height]`: the
coordinate `width` (resp. `height`) itself can be yielded on a positive
step, because the sentinel is `width + 1` (resp. `height + 1`), one past
the spec's claimed bound. -/
theorem cast_tail_in_closed_bounds (w h : ℤ) (ox oy dx dy : ℚ) (fuel : ℕ)
    (hw : 1 ≤ w) (hh : 1 ≤ h)
    (hx0 : 0 ≤ Rat.floor ox) (hxw : Rat.floor ox < w)
    (hy0 : 0 ≤ Rat.floor oy) (hyh : Rat.floor oy < h) :
    ∀ c ∈ (castCells w h ox oy dx dy fuel).tail,
      0 ≤ c.1 ∧ c.1 ≤ w ∧ 0 ≤ c.2 ∧ c.2 ≤ h := by
  obtain ⟨hinv, _⟩ := initState_inv w h ox oy dx dy hx0 (le_of_lt hxw) hy0 (le_of_lt hyh)
  have hr := (run_inv w h fuel (initState w h ox oy dx dy) hinv).2.1
  unfold castCells
  simpa using hr

theorem cast_tail_in_closed_bounds_witness :
    0 ≤ ((0 : ℤ), (1 : ℤ)).1 ∧ ((0 : ℤ), (1 : ℤ)).1 ≤ 4 ∧
    0 ≤ ((0 : ℤ), (1 : ℤ)).2 ∧ ((0 : ℤ), (1 : ℤ)).2 ≤ 4 :=
  cast_tail_in_closed_bounds 4 4 (1/2) (5/2) 1 (-1) 9 (by decide) (by decide)
    (by decide) (by decide) (by decide) (by decide) ((0 : ℤ), (1 : ℤ)) (by decide)

/-- C4 counterexample: on a `1 × 1` grid with origin `(1/2, 1/2)` and
direction `(1, 1)` the complete traversal yields `(0,0), (0,1), (1,1)` —
three cells, exceeding `width + height = 2`. -/
theorem cast_cex_length_gt :
    castTerm 1 1 (1/2) (1/2) 1 1 5 = true ∧
    1 + 1 < (castCells 1 1 (1/2) (1/2) 1 1 5).length := by decide

/-- C4 (amended): for a floored origin inside the grid the number of cells
yielded by one call to `cast` never exceeds `width + height + 1` (for any
consumer budget); the spec's bound `width + height` is off by one because
each positive-direction axis can yield the out-of-range coordinate at the
grid size before the sentinel `size + 1` is hit. -/
theorem cast_length_le_of_inGrid (w h : ℤ) (ox oy dx dy : ℚ) (fuel : ℕ)
    (hw : 1 ≤ w) (hh : 1 ≤ h)
    (hx0 : 0 ≤ Rat.floor ox) (hxw : Rat.floor ox < w)
    (hy0 : 0 ≤ Rat.floor oy) (hyh : Rat.floor oy < h) :
    (castCells w h ox oy dx dy fuel).length ≤ (w + h + 1).toNat := by
  obtain ⟨hinv, hm⟩ := initState_inv w h ox oy dx dy hx0 (le_of_lt hxw) hy0 (le_of_lt hyh)
  have hr := (run_inv w h fuel (initState w h ox oy dx dy) hinv).1
  unfold castCells
  simp only [List.length_cons]
  omega

theorem cast_length_le_of_inGrid_witness :
    (castCells 5 5 (7/2) (3/2) (-1) 1 20).length ≤ ((5 : ℤ) + 5 + 1).toNat :=
  cast_length_le_of_inGrid 5 5 (7/2) (3/2) (-1) 1 20 (by decide) (by decide)
    (by decide) (by decide) (by decide) (by decide)

/-- C6 counterexample: on the `5 × 5` grid with origin `(9/2, 9/2)` and
direction `(-1, -1)` the complete output is not the five-cell diagonal the
claim states: each loop iteration advances exactly one axis and yields, so
the intermediate staircase cells are yielded as well. -/
theorem cast_cex_diagonal :
    castTerm 5 5 (9/2) (9/2) (-1) (-1) 20 = true ∧
    castCells 5 5 (9/2) (9/2) (-1) (-1) 20 ≠
      [(4, 4), (3, 3), (2, 2), (1, 1), (0, 0)] := by decide

/-- C6 (amended): on the `5 × 5` grid with origin `(9/2, 9/2)` and direction
`(-1, -1)`, `cast` yields the nine-cell staircase
`(4,4),(4,3),(3,3),(3,2),(2,2),(2,1),(1,1),(1,0),(0,0)`: ties in
`tMaxX < tMaxY` are false, so the Y axis advances (and its new cell is
yielded) before the X axis at every diagonal crossing. -/
theorem cast_diagonal_staircase :
    castTerm 5 5 (9/2) (9/2) (-1) (-1) 20 = true ∧
    castCells 5 5 (9/2) (9/2) (-1) (-1) 20 =
      [(4, 4), (4, 3), (3, 3), (3, 2), (2, 2), (2, 1), (1, 1), (1, 0), (0, 0)] := by
  decide

/-- C7 counterexample: with the out-of-grid floored origin `(-1, 0)` on a
`5 × 5` grid and direction `(1, 0)`, `cast` yields seven cells, not one:
termination is the equality test `x == justOutX`, not a bounds check, so the
walk continues from outside the grid all the way across it. -/
theorem cast_cex_out_origin_many :
    ¬ inGrid 5 5 (Rat.floor (-1/2 : ℚ), Rat.floor (1/2 : ℚ)) ∧
    castTerm 5 5 (-1/2) (1/2) 1 0 10 = true ∧
    (castCells 5 5 (-1/2) (1/2) 1 0 10).length = 7 := by decide

/-- C7 (amended): an out-of-range origin is not rejected and the out-of-grid
floored origin cell is yielded first; but the traversal does not stop at the
first step check: it stops only when a stepped coordinate equals its
`justOut` sentinel, so it can yield many further cells (origin `(-3/2, 1/2)`,
direction `(1, 0)` on `3 × 3` yields six cells) or never terminate (origin
`(7/2, 1/2)`, direction `(1, 0)` on `2 × 2`, whose start cell is already at
the sentinel). -/
theorem cast_out_origin_behaviour :
    (∀ (w h : ℤ) (ox oy dx dy : ℚ) (fuel : ℕ),
      ¬ inGrid w h (Rat.floor ox, Rat.floor oy) →
      (castCells w h ox oy dx dy fuel).head? = some (Rat.floor ox, Rat.floor oy)) ∧
    (castTerm 3 3 (-3/2) (1/2) 1 0 10 = true ∧
      (castCells 3 3 (-3/2) (1/2) 1 0 10).length = 6) ∧
    ¬ ∃ n : ℕ, castTerm 2 2 (7/2) (1/2) 1 0 n = true := by
  refine ⟨fun w h ox oy dx dy fuel _ => rfl, by decide, ?_⟩
  rintro ⟨n, hn⟩
  have h0 : (run n (initState 2 2 (7/2) (1/2) 1 0)).2 = false :=
    run_no_exit n (initState 2 2 (7/2) (1/2) 1 0)
      ⟨1/2, by decide⟩ ⟨1, by decide⟩ (by decide) (by decide) (by decide)
  unfold castTerm at hn
  rw [h0] at hn
  exact Bool.noConfusion hn

theorem cast_out_origin_behaviour_witness :
    (castCells 4 4 (9/2) (9/2) 1 1 3).head? =
      some (Rat.floor (9/2 : ℚ), Rat.floor (9/2 : ℚ)) :=
  cast_out_origin_behaviour.1 4 4 (9/2) (9/2) 1 1 3 (by decide)

/-- C8 (confirmed): the initialisation of `cast` tests each direction
component against zero before dividing (lines 49-61): routing every division
it performs through a zero-checking division reproduces exactly the values
`cast` computes and never reports a division by zero, and a zero component
receives the explicit `inf` sentinel for both its `tMax` and its `tDelta`. -/
theorem cast_no_division_by_zero (w h : ℤ) (ox oy dx dy : ℚ) :
    axisInitChecked ox dx =
      some ((initState w h ox oy dx dy).tMaxX, (initState w h ox oy dx dy).tDeltaX) ∧
    axisInitChecked oy dy =
      some ((initState w h ox oy dx dy).tMaxY, (initState w h ox oy dx dy).tDeltaY) ∧
    (dx = 0 → (initState w h ox oy dx dy).tMaxX = ExtQ.inf ∧
      (initState w h ox oy dx dy).tDeltaX = ExtQ.inf) ∧
    (dy = 0 → (initState w h ox oy dx dy).tMaxY = ExtQ.inf ∧
      (initState w h ox oy dx dy).tDeltaY = ExtQ.inf) := by
  refine ⟨axisInitChecked_eq ox dx, axisInitChecked_eq oy dy, ?_, ?_⟩
  · intro hdx
    subst hdx
    exact ⟨tMaxInit_zero ox, tDeltaInit_zero⟩
  · intro hdy
    subst hdy
    exact ⟨tMaxInit_zero oy, tDeltaInit_zero⟩

theorem cast_no_division_by_zero_witness :
    (initState 5 5 (1/2) (3/2) 0 0).tMaxX = ExtQ.inf ∧
    (initState 5 5 (1/2) (3/2) 0 0).tDeltaX = ExtQ.inf :=
  (cast_no_division_by_zero 5 5 (1/2) (3/2) 0 0).2.2.1 rfl

/-- C9 counterexample: constructing with non-positive dimensions does not
fail: `__init__` simply stores `width = 0, height = -3` (and `set_dim`
likewise accepts non-positive values), whereas the construction the spec
describes would report `InvalidDimension` on the same input. -/
theorem make_cex_no_validation :
    VoxelRaycaster.make 0 (-3) = { width := 0, height := -3 } ∧
    specConstruct 0 (-3) = ConstructResult.invalidDimension ∧
    (VoxelRaycaster.make 4 4).set_dim (-1) 0 = { width := -1, height := 0 } := by
  decide

/-- C9 (amended): construction and `set_dim` perform no validation at all:
any integer dimensions, non-positive ones included, are accepted and stored
unchanged, and no InvalidDimension error exists anywhere in the code. -/
theorem make_stores_unvalidated (w h : ℤ) (r : VoxelRaycaster) :
    VoxelRaycaster.make w h = { width := w, height := h } ∧
    r.set_dim w h = { width := w, height := h } :=
  ⟨rfl, rfl⟩

/-- C10 (confirmed): a call to `cast` (its sequence fully consumed, whatever
the budget) leaves the raycaster unchanged: the generator body reads
`self.width`/`self.height` but assigns only local variables, so the object
after the call is the object before it, and the yielded cells are a pure
function of the stored dimensions and the arguments. -/
theorem cast_preserves_dims (r : VoxelRaycaster) (ox oy dx dy : ℚ) (fuel : ℕ) :
    (r.cast ox oy dx dy fuel).2 = r ∧
    (r.cast ox oy dx dy fuel).2.width = r.width ∧
    (r.cast ox oy dx dy fuel).2.height = r.height ∧
    (r.cast ox oy dx dy fuel).1 = castCells r.width r.height ox oy dx dy fuel :=
  ⟨rfl, rfl, rfl, rfl⟩

end VoxelTraverse
